import Mathlib

/-
Verification of parlaylib's pool allocator, concurrent stack and 16-byte
CAS wrapper (src/include/parlay/alloc.h,
src/include/parlay/internal/concurrent_stack.h,
src/include/parlay/experimental/atomic.h).

The code is embedded shallowly for single-threaded executions: the CAS
retry loops of the lock-free stack always succeed on the first attempt
when no other thread interferes, so each loop body is modelled as one
state transition.  Machine integers that can wrap (the `uint64_t`
counter and the `size_t` memoized length of `concurrent_stack`) are
modelled as `Nat` reduced modulo `2 ^ 64`.  Raw pointers are modelled as
abstract block identifiers (`Nat`); system allocation hands out fresh
identifiers and is logged, so that "a fresh system allocation of k bytes
happened" is observable in the state.
-/

namespace Parlay

/-! ## atomic.h : atomic_compare_and_swap_16 -/

/-- The two platform backends of `atomic_compare_and_swap_16`:
`__sync_bool_compare_and_swap_16` (GNUC with MCX16) and
`_InterlockedCompareExchange128` (Windows). -/
inductive CasBackend where
  | gnu
  | windows
  deriving DecidableEq

/-- Backend selection mirroring the preprocessor conditionals of
atomic.h: `PARLAY_EXPERIMENTAL_GNU_CAS` is defined when `__GNUC__` and
`MCX16` are both defined, `PARLAY_EXPERIMENTAL_WINDOWS_CAS` when a
WIN32 macro is defined, and the `#if / #elif` in the function body picks
the GNU backend first.  When neither holds, the `#else` branch of the
function is an empty comment: no backend. -/
def selectBackend (gnuMcx16 win32 : Bool) : Option CasBackend :=
  if gnuMcx16 then some CasBackend.gnu
  else if win32 then some CasBackend.windows
  else none

/-- Whether `atomic_compare_and_swap_16<T>` compiles (is well-formed at
compile time) for an operand type of `sizeofT` bytes in a configuration
with the given macros.  The source's only compile-time rejection is
`static_assert(sizeof(T) == 16)`; the no-backend `#else` branch contains
only a comment (no `#error`), so the function compiles even when
`selectBackend` yields `none`. -/
def cas16Compiles (sizeofT : Nat) (_gnuMcx16 _win32 : Bool) : Bool :=
  sizeofT == 16

/-- Modelled from the spec: the semantics of the platform's double-width
compare-and-exchange backend (a compiler intrinsic, external to this
repository): it compares the current 16 bytes at the location with the
expected value and replaces them with the desired value exactly when
they are equal, returning the new contents together with whether the
exchange happened. -/
def cas16 {T : Type} [DecidableEq T] (current expected desired : T) : T × Bool :=
  if current = expected then (desired, true) else (current, false)

/-! ## concurrent_stack.h : concurrent_stack<T>

`Node` holds a value, a next pointer and a memoized `size_t` length.
A `prim_concurrent_stack` head is a `nodeAndCounter`: the top node
pointer paired with a `uint64_t` counter bumped by one on every
successful CAS.  The linked list hanging off the head is modelled as a
`List` of node contents; the counter and the stored lengths wrap modulo
`2 ^ 64`. -/

/-- Modulus of the 64-bit unsigned integers (`uint64_t` counter,
`size_t` memoized length). -/
def U64 : Nat := 2 ^ 64

/-- Contents of a stack `Node`: the stored value and the memoized
`size_t` length captured at push time.  The `next` pointer is
represented by the node's position in the list. -/
structure SNode (T : Type) where
  value : T
  length : Nat
  deriving DecidableEq

/-- A `prim_concurrent_stack`: the list of nodes reachable from
`head.node` (head first) plus the `uint64_t` counter of the head's
`nodeAndCounter`. -/
structure PrimStack (T : Type) where
  nodes : List (SNode T)
  counter : Nat
  deriving DecidableEq

/-- The helper `length(Node* n)`: 0 for `nullptr`, else the node's
memoized length. -/
def lengthOf {T : Type} : List (SNode T) → Nat
  | [] => 0
  | x :: _ => x.length

/-- `prim_concurrent_stack::size()` reads the memoized length of the
head node. -/
def primSize {T : Type} (s : PrimStack T) : Nat := lengthOf s.nodes

/-- `prim_concurrent_stack::push(newNode)`: one iteration of the CAS
loop (in a single-threaded run the CAS succeeds immediately).  The new
node's `next` becomes the old head, its memoized length becomes
`length(oldHead.node) + 1` (a `size_t`, hence mod `2 ^ 64`) and the head
counter is bumped by one (a `uint64_t`, hence mod `2 ^ 64`). -/
def primPush {T : Type} (s : PrimStack T) (newNode : SNode T) : PrimStack T :=
  { nodes := { newNode with length := (lengthOf s.nodes + 1) % U64 } :: s.nodes,
    counter := (s.counter + 1) % U64 }

/-- `prim_concurrent_stack::pop()`: returns `none` on an empty stack
without touching the head; otherwise one successful CAS installs
`(result->next, counter + 1)` as the new head and the old top node is
returned. -/
def primPop {T : Type} (s : PrimStack T) : Option (SNode T) × PrimStack T :=
  match s.nodes with
  | [] => (none, s)
  | x :: rest => (some x, { nodes := rest, counter := (s.counter + 1) % U64 })

/-- `concurrent_stack<T>`: primitive stack `a` holds the live values,
primitive stack `b` holds retired node shells for reuse. -/
structure CStack (T : Type) where
  a : PrimStack T
  b : PrimStack T
  deriving DecidableEq

/-- A freshly constructed `concurrent_stack`: both primitive stacks
start with a null head and counter 0. -/
def emptyCS {T : Type} : CStack T :=
  { a := { nodes := [], counter := 0 }, b := { nodes := [], counter := 0 } }

/-- `concurrent_stack::size()` forwards to `a.size()`. -/
def csSize {T : Type} (S : CStack T) : Nat := primSize S.a

/-- `concurrent_stack::push(v)`: pop a shell from `b` (or allocate a
fresh node whose fields are uninitialized; the model fills the fields
with placeholders since `x->value = v` and the length assignment in
`prim_concurrent_stack::push` overwrite them before they are read),
store `v` in it and push it onto `a`. -/
def csPush {T : Type} (S : CStack T) (v : T) : CStack T :=
  match primPop S.b with
  | (some shell, b2) => { a := primPush S.a { shell with value := v }, b := b2 }
  | (none, b2) => { a := primPush S.a { value := v, length := 0 }, b := b2 }

/-- `concurrent_stack::pop()`: pop from `a`; on `nullptr` signal empty,
otherwise copy the value out, retire the shell onto `b` and return the
value. -/
def csPop {T : Type} (S : CStack T) : Option T × CStack T :=
  match primPop S.a with
  | (none, a2) => (none, { S with a := a2 })
  | (some x, a2) => (some x.value, { a := a2, b := primPush S.b x })

/-- A single-threaded request against a `concurrent_stack`. -/
inductive SOp (T : Type) where
  | push (v : T)
  | pop
  deriving DecidableEq

/-- Run a single-threaded sequence of push/pop operations, returning the
final stack and the list of pop results in execution order. -/
def runOps {T : Type} : CStack T → List (SOp T) → CStack T × List (Option T)
  | S, [] => (S, [])
  | S, SOp.push v :: rest => runOps (csPush S v) rest
  | S, SOp.pop :: rest =>
      let pr := csPop S
      let tail := runOps pr.2 rest
      (tail.1, pr.1 :: tail.2)

/-- Number of push operations in a request sequence. -/
def pushCount {T : Type} : List (SOp T) → Nat
  | [] => 0
  | SOp.push _ :: rest => pushCount rest + 1
  | SOp.pop :: rest => pushCount rest

/-- Number of successful pops among a list of pop results. -/
def succCount {T : Type} : List (Option T) → Nat
  | [] => 0
  | some _ :: rest => succCount rest + 1
  | none :: rest => succCount rest

/-- The memoized-length invariant of a primitive stack's node list: each
node stores the length of the list from itself down, reduced mod
`2 ^ 64` (the value `prim_concurrent_stack::push` wrote into it). -/
def WFNodes {T : Type} : List (SNode T) → Prop
  | [] => True
  | x :: rest => x.length = (rest.length + 1) % U64 ∧ WFNodes rest

/-- Iterated `prim_concurrent_stack::push` of dummy nodes onto an
initially null head, used to trace the evolution of the head counter. -/
def pushIter : Nat → PrimStack Nat
  | 0 => { nodes := [], counter := 0 }
  | k + 1 => primPush (pushIter k) { value := 0, length := 0 }

/-! ## alloc.h : pool_allocator -/

/-- `pool_allocator::large_align`. -/
def large_align : Nat := 64

/-- `pool_allocator::large_threshold` (`1 << 20`). -/
def large_threshold : Nat := 2 ^ 20

/-- The alignment rounding in `allocate_large`: round `alloc_size` up to
the next multiple of `large_align` when it is not already one.  The
addition `alloc_size += (large_align - alloc_size % large_align)` is
`size_t` arithmetic, so it wraps modulo `2 ^ 64`: rounding `SIZE_MAX`
yields 0. -/
def round_to_align (a : Nat) : Nat :=
  if a % large_align ≠ 0 then (a + (large_align - a % large_align)) % U64 else a

/-- The `while (n > sizes[bucket]) bucket++;` scan: starting at index
`i`, with `l` being the tail of the size list from index `i` on, return
the first index whose size is at least `n` (or the index one past the
scanned elements, modelling the loop running off the end of the
vector). -/
def scanFrom (n : Nat) : Nat → List Nat → Nat
  | i, [] => i
  | i, s :: rest => if n > s then scanFrom n (i + 1) rest else i

/-- `while (n > sizes[bucket]) bucket++;` started at index `start` of
the size list. -/
def findBucket (sizes : List Nat) (start n : Nat) : Nat :=
  scanFrom n start (sizes.drop start)

/-- A call forwarded to a small bucket's `block_allocator`
(an external collaborator; only the calls are recorded). -/
inductive SmallOp where
  | alloc (ptr : Nat)
  | free (ptr : Nat)
  deriving DecidableEq

/-- State of a `pool_allocator`, plus observation logs for the effects
that escape it: fresh system allocations (`::operator new`), frees back
to the system (`::operator delete`) and calls into the small buckets'
`block_allocator`s.  `large_buckets` holds one recycling stack of block
identifiers per large bucket; `next_id` generates fresh block
identifiers for `::operator new` and `block_allocator::alloc`.

`large_allocated` is the `std::atomic<long>` byte counter.  A `long` is
a machine integer whose atomic `+=`/`-=` wrap: `long_mod` records the
platform's wrap modulus (`2 ^ 32` on LLP64 Windows, `2 ^ 64` on LP64),
and the counter is stored as the canonical representative of its
two's-complement bit pattern in `[0, long_mod)`; every update reduces
modulo `long_mod`. -/
structure PoolState where
  sizes : List Nat
  num_buckets : Nat
  num_small : Nat
  max_small : Nat
  max_size : Nat
  long_mod : Nat
  large_allocated : Int
  large_buckets : List (List Nat)
  small_log : List (Nat × SmallOp)
  next_id : Nat
  sys_allocs : List (Nat × Nat)
  sys_frees : List Nat
  deriving DecidableEq

/-- The small prefix of the size list: the sizes strictly below
`large_threshold`, exactly the buckets counted by the constructor's
`while (num_small < num_buckets && sizes[num_small] < large_threshold)`
loop. -/
def smallPart (sizes : List Nat) : List Nat :=
  sizes.takeWhile (fun s => decide (s < large_threshold))

/-- Consistency of the cached fields of a `pool_allocator` with its size
list, together with the spec's configuration precondition that the size
list is strictly increasing (the constructor itself checks this only
for the small prefix), the `size_t` representability of the stored
sizes, and the machine representation of the `long` counter: `long_mod`
is one of the two supported platform widths and `large_allocated` is
the canonical representative of the counter's bit pattern. -/
def ValidPool (P : PoolState) : Prop :=
  P.sizes ≠ [] ∧
  List.Pairwise (· < ·) P.sizes ∧
  P.num_buckets = P.sizes.length ∧
  P.num_small = (smallPart P.sizes).length ∧
  P.max_small = (if P.num_small = 0 then 0 else P.sizes.getD (P.num_small - 1) 0) ∧
  P.max_size = P.sizes.getD (P.num_buckets - 1) 0 ∧
  P.large_buckets.length = P.num_buckets - P.num_small ∧
  (∀ s ∈ P.sizes, s < U64) ∧
  (P.long_mod = 2 ^ 32 ∨ P.long_mod = 2 ^ 64) ∧
  0 ≤ P.large_allocated ∧
  P.large_allocated < (P.long_mod : Int)

instance (P : PoolState) : Decidable (ValidPool P) :=
  inferInstanceAs
    (Decidable
      (P.sizes ≠ [] ∧
       List.Pairwise (· < ·) P.sizes ∧
       P.num_buckets = P.sizes.length ∧
       P.num_small = (smallPart P.sizes).length ∧
       P.max_small = (if P.num_small = 0 then 0 else P.sizes.getD (P.num_small - 1) 0) ∧
       P.max_size = P.sizes.getD (P.num_buckets - 1) 0 ∧
       P.large_buckets.length = P.num_buckets - P.num_small ∧
       (∀ s ∈ P.sizes, s < U64) ∧
       (P.long_mod = 2 ^ 32 ∨ P.long_mod = 2 ^ 64) ∧
       0 ≤ P.large_allocated ∧
       P.large_allocated < (P.long_mod : Int)))

/-- A fresh system allocation inside `allocate_large`: the requested
size is rounded up to a multiple of `large_align`, a fresh block is
handed out (`::operator new` is modelled as always succeeding) and the
large-allocated counter grows by the requested size `n` — a wrapping
`long` increment, reduced modulo the platform's `long_mod`. -/
def freshAlloc (P : PoolState) (n allocReq : Nat) : Nat × PoolState :=
  let allocSize := round_to_align allocReq
  (P.next_id,
   { P with
       next_id := P.next_id + 1,
       sys_allocs := (P.next_id, allocSize) :: P.sys_allocs,
       large_allocated := (P.large_allocated + (n : Int)) % (P.long_mod : Int) })

/-- `pool_allocator::allocate_large(n)`: when `n` fits the configured
buckets, scan for the bucket from `num_small` on, try to pop its
recycling stack and on a miss allocate `sizes[bucket]` (aligned) fresh;
when `n` exceeds `max_size`, allocate `n` (aligned) fresh. -/
def allocate_large (P : PoolState) (n : Nat) : Nat × PoolState :=
  if n ≤ P.max_size then
    let bucket := findBucket P.sizes P.num_small n
    match P.large_buckets.getD (bucket - P.num_small) [] with
    | ptr :: rest =>
        (ptr, { P with large_buckets := P.large_buckets.set (bucket - P.num_small) rest })
    | [] => freshAlloc P n (P.sizes.getD bucket 0)
  else freshAlloc P n n

/-- `pool_allocator::deallocate_large(ptr, n)`: oversized blocks go back
to the system and the counter shrinks by `n` — a wrapping `long`
decrement, reduced modulo the platform's `long_mod`; pooled blocks are
pushed onto their bucket's stack (no counter change). -/
def deallocate_large (P : PoolState) (ptr n : Nat) : PoolState :=
  if n > P.max_size then
    { P with
        sys_frees := ptr :: P.sys_frees,
        large_allocated := (P.large_allocated - (n : Int)) % (P.long_mod : Int) }
  else
    let bucket := findBucket P.sizes P.num_small n
    { P with
        large_buckets :=
          P.large_buckets.set (bucket - P.num_small)
            (ptr :: P.large_buckets.getD (bucket - P.num_small) []) }

/-- `pool_allocator::allocate(n)`: requests above `max_small` go to
`allocate_large`; the rest scan the size list from index 0 and call
`small_allocators[bucket].alloc()` (logged, handing out a fresh block
identifier). -/
def allocate (P : PoolState) (n : Nat) : Nat × PoolState :=
  if n > P.max_small then allocate_large P n
  else
    let bucket := findBucket P.sizes 0 n
    (P.next_id,
     { P with
         next_id := P.next_id + 1,
         small_log := (bucket, SmallOp.alloc P.next_id) :: P.small_log })

/-- `pool_allocator::deallocate(ptr, n)`: symmetric routing back. -/
def deallocate (P : PoolState) (ptr n : Nat) : PoolState :=
  if n > P.max_small then deallocate_large P ptr n
  else
    let bucket := findBucket P.sizes 0 n
    { P with small_log := (bucket, SmallOp.free ptr) :: P.small_log }

/-- The inner loop of `pool_allocator::clear()` for one large bucket:
pop until empty; each popped block decrements `large_allocated` by the
bucket size (a wrapping `long` decrement, reduced modulo the platform's
`long_mod`) and is deleted back to the system. -/
def drainStack (sz : Nat) : List Nat → PoolState → PoolState
  | [], P => P
  | ptr :: rest, P =>
      drainStack sz rest
        { P with
            large_allocated := (P.large_allocated - (sz : Int)) % (P.long_mod : Int),
            sys_frees := ptr :: P.sys_frees }

/-- `pool_allocator::clear()`: for each bucket index `i` from
`num_small` to `num_buckets`, drain `large_buckets[i - num_small]`
using `sizes[i]`; afterwards every large bucket's stack is empty.  The
per-bucket iteration pairs each large bucket's stack with its size via
the `sizes` list offset by `num_small`, exactly as the loop indexes
both arrays. -/
def clear (P : PoolState) : PoolState :=
  let pairs := P.large_buckets.zip (P.sizes.drop P.num_small)
  let drained := pairs.foldl (fun Q pr => drainStack pr.2 pr.1 Q) P
  { drained with large_buckets := drained.large_buckets.map (fun _ => []) }

/-- The configuration failures of the `pool_allocator` constructor,
plus the out-of-bounds vector read it performs on an empty size list
(undefined behaviour in C++, surfaced as a distinguished outcome
here). -/
inductive ConfigErr where
  | outOfBounds
  | tooSmall
  | notIncreasing
  deriving DecidableEq

/-- The constructor's validation loop over the small buckets: throw for
a size below 8, throw when the size does not strictly exceed the
previous one (`prev` starts at 0), otherwise continue. -/
def checkSmallSizes : Nat → List Nat → Option ConfigErr
  | _, [] => none
  | prev, s :: rest =>
      if s < 8 then some ConfigErr.tooSmall
      else if ¬ prev < s then some ConfigErr.notIncreasing
      else checkSmallSizes s rest

/-- `pool_allocator::pool_allocator(std::vector<size_t> const&)`: read
`sizes[num_buckets - 1]` (out of bounds when the list is empty), count
the small buckets, compute `max_small`, create one empty recycling
stack per large bucket and validate only the small prefix of the size
list while constructing the small allocators. -/
def mkPoolAllocator (sizes : List Nat) : Except ConfigErr PoolState :=
  let numBuckets := sizes.length
  match sizes.get? (numBuckets - 1) with
  | none => Except.error ConfigErr.outOfBounds
  | some maxSize =>
      let numSmall := (smallPart sizes).length
      let maxSmall := if numSmall = 0 then 0 else sizes.getD (numSmall - 1) 0
      match checkSmallSizes 0 (sizes.take numSmall) with
      | some e => Except.error e
      | none =>
          Except.ok
            { sizes := sizes,
              num_buckets := numBuckets,
              num_small := numSmall,
              max_small := maxSmall,
              max_size := maxSize,
              -- embedded for an LP64 platform (64-bit long); the general
              -- theorems quantify over both supported widths via ValidPool
              long_mod := U64,
              large_allocated := 0,
              large_buckets := List.replicate (numBuckets - numSmall) [],
              small_log := [],
              next_id := 0,
              sys_allocs := [],
              sys_frees := [] }

/-- The bucket the spec's words select: the first index of the size
list whose size is at least `n` (for a strictly increasing list this is
the smallest configured bucket size that is at least `n`). -/
def leastBucketIdx (sizes : List Nat) (n : Nat) : Nat :=
  sizes.findIdx (fun s => decide (n ≤ s))

/-- What C1 asserts for a request routed to a small bucket `b`: the
call is delegated to bucket `b`'s sub-allocator, with no large bucket
touched and no system allocation. -/
def smallPathProp (P : PoolState) (n b : Nat) : Prop :=
  (allocate P n).2.small_log = (b, SmallOp.alloc (allocate P n).1) :: P.small_log ∧
  (allocate P n).2.large_buckets = P.large_buckets ∧
  (allocate P n).2.sys_allocs = P.sys_allocs

/-- What C1 asserts for a request routed to a large bucket `b`: on a
hit, the popped block is returned and no system allocation happens; on
a miss, a fresh system allocation of the bucket size rounded up to a
multiple of 64 is performed and the large-allocated counter grows by
`n` (a wrapping `long` increment, modulo the platform's width). -/
def largePathProp (P : PoolState) (n b : Nat) : Prop :=
  match P.large_buckets.getD (b - P.num_small) [] with
  | ptr :: rest =>
      (allocate P n).1 = ptr ∧
      (allocate P n).2.large_buckets = P.large_buckets.set (b - P.num_small) rest ∧
      (allocate P n).2.sys_allocs = P.sys_allocs
  | [] =>
      (allocate P n).2.sys_allocs =
        ((allocate P n).1, round_to_align (P.sizes.getD b 0)) :: P.sys_allocs ∧
      (allocate P n).2.large_allocated
        = (P.large_allocated + (n : Int)) % (P.long_mod : Int) ∧
      (allocate P n).2.large_buckets = P.large_buckets

/-- Claim C1 instantiated at a state and request size: `allocate(n)`
serves the smallest bucket with size at least `n`, through the small
bucket's sub-allocator when that bucket's size is below
`large_threshold` and through the bucket's recycling stack (with the
described miss behaviour) otherwise. -/
def C1Pred (P : PoolState) (n : Nat) : Prop :=
  if P.sizes.getD (leastBucketIdx P.sizes n) 0 < large_threshold
  then smallPathProp P n (leastBucketIdx P.sizes n)
  else largePathProp P n (leastBucketIdx P.sizes n)

/-- Total number of bytes sitting in the large buckets' recycling
stacks, counted at bucket granularity: for each large bucket, the
number of stacked blocks times that bucket's size (the amount `clear()`
subtracts from `large_allocated`). -/
def totalLargeBytes (P : PoolState) : Nat :=
  ((P.large_buckets.zip (P.sizes.drop P.num_small)).map
    (fun pr => pr.1.length * pr.2)).sum

/-- The block identifiers freed by draining a list of
(stack, bucket size) pairs in order, most recently freed first. -/
def drainedPtrs (pairs : List (List Nat × Nat)) : List Nat :=
  pairs.foldl (fun acc pr => pr.1.reverse ++ acc) []

/-- The bucket list of the spec's worked scenario:
`{16, 64, 1 << 20, 1 << 21}`. -/
def demoSizes : List Nat := [16, 64, 1048576, 2097152]

/-- The pool state `pool_allocator(demoSizes)` constructs: two small
buckets (16 and 64), two large buckets with empty recycling stacks. -/
def P0 : PoolState :=
  { sizes := demoSizes, num_buckets := 4, num_small := 2, max_small := 64,
    max_size := 2097152, long_mod := U64, large_allocated := 0,
    large_buckets := [[], []],
    small_log := [], next_id := 0, sys_allocs := [], sys_frees := [] }

/-- Scenario step 1: `allocate(10)`. -/
def step1 : Nat × PoolState := allocate P0 10

/-- Scenario step 2: `allocate(70)` on the state after step 1. -/
def step2 : Nat × PoolState := allocate step1.2 70

/-- Scenario step 3: `deallocate(ptr, 70)` of the block from step 2. -/
def scen3 : PoolState := deallocate step2.2 step2.1 70

/-- Scenario step 4: the second `allocate(70)`. -/
def step4 : Nat × PoolState := allocate scen3 70

/-- The pool state `pool_allocator({1 << 20})` constructs: a single
large bucket and no small bucket, so `max_small = 0`. -/
def P1 : PoolState :=
  { sizes := [1048576], num_buckets := 1, num_small := 0, max_small := 0,
    max_size := 1048576, long_mod := U64, large_allocated := 0,
    large_buckets := [[]],
    small_log := [], next_id := 0, sys_allocs := [], sys_frees := [] }

/-- A sequence of `2 ^ 64` pushes, enough to wrap the `size_t` memoized
length of the concurrent stack. -/
def hugePushes : List (SOp Nat) := List.replicate U64 (SOp.push 0)

/-! ## Auxiliary list lemmas -/

theorem getD_eq_get (l : List Nat) (i : Nat) (h : i < l.length) :
    l.getD i 0 = l.get ⟨i, h⟩ := by
  induction l generalizing i with
  | nil => simp at h
  | cons a rest ih =>
      cases i with
      | zero => rfl
      | succ j => simpa using ih j (by simpa using h)

theorem scanFrom_shift (n : Nat) (l : List Nat) :
    ∀ i : Nat, scanFrom n i l = i + scanFrom n 0 l := by
  induction l with
  | nil => intro i; simp [scanFrom]
  | cons s rest ih =>
      intro i
      by_cases h : n > s
      · simp only [scanFrom, if_pos h]
        rw [ih (i + 1), ih 1]
        omega
      · simp [scanFrom, if_neg h]

theorem scanFrom_zero_eq_findIdx (n : Nat) (l : List Nat) :
    scanFrom n 0 l = l.findIdx (fun s => decide (n ≤ s)) := by
  induction l with
  | nil => rfl
  | cons s rest ih =>
      by_cases h : n ≤ s
      · simp [scanFrom, List.findIdx_cons, h, Nat.not_lt.mpr h]
      · have hgt : n > s := Nat.lt_of_not_le h
        simp only [scanFrom, if_pos hgt, List.findIdx_cons, decide_eq_true_eq]
        simp only [h, decide_False, cond_false]
        rw [scanFrom_shift, ih]
        omega

theorem findIdx_append_all_false (p : Nat → Bool) (l1 l2 : List Nat)
    (h : ∀ x ∈ l1, p x = false) :
    (l1 ++ l2).findIdx p = l1.length + l2.findIdx p := by
  induction l1 with
  | nil => simp
  | cons a rest ih =>
      have ha : p a = false := h a (by simp)
      simp only [List.cons_append, List.findIdx_cons, ha, cond_false, List.length_cons]
      rw [ih (fun x hx => h x (by simp [hx]))]
      omega

theorem findIdx_le_of_getD (p : Nat → Bool) (l : List Nat) :
    ∀ j : Nat, j < l.length → p (l.getD j 0) = true → l.findIdx p ≤ j := by
  induction l with
  | nil => intro j hj; simp at hj
  | cons a rest ih =>
      intro j hj hp
      cases j with
      | zero =>
          simp only [List.getD_cons_zero] at hp
          simp [List.findIdx_cons, hp]
      | succ k =>
          by_cases ha : p a = true
          · simp [List.findIdx_cons, ha]
          · rw [List.findIdx_cons]
            simp only [eq_false_of_ne_true ha, cond_false]
            have := ih k (by simpa using hj) (by simpa using hp)
            omega

theorem takeWhile_getD_true (p : Nat → Bool) (l : List Nat) :
    ∀ i : Nat, i < (l.takeWhile p).length → p (l.getD i 0) = true := by
  induction l with
  | nil => intro i hi; simp [List.takeWhile] at hi
  | cons a rest ih =>
      intro i hi
      rw [List.takeWhile_cons] at hi
      by_cases ha : p a = true
      · rw [if_pos ha] at hi
        cases i with
        | zero => simpa using ha
        | succ k => simpa using ih k (by simpa using hi)
      · rw [if_neg ha] at hi
        simp at hi

theorem length_takeWhile_le' (p : Nat → Bool) (l : List Nat) :
    (l.takeWhile p).length ≤ l.length := by
  induction l with
  | nil => simp
  | cons a rest ih =>
      rw [List.takeWhile_cons]
      by_cases ha : p a = true
      · rw [if_pos ha]; simpa using ih
      · rw [if_neg ha]; simp

theorem takeWhile_length_getD_false (p : Nat → Bool) (l : List Nat)
    (h : (l.takeWhile p).length < l.length) :
    p (l.getD (l.takeWhile p).length 0) = false := by
  induction l with
  | nil => simp at h
  | cons a rest ih =>
      rw [List.takeWhile_cons]
      by_cases ha : p a = true
      · rw [List.takeWhile_cons, if_pos ha] at h
        rw [if_pos ha]
        simpa using ih (by simpa using h)
      · rw [if_neg ha]
        simpa using eq_false_of_ne_true ha

theorem take_takeWhile_length (p : Nat → Bool) (l : List Nat) :
    l.take (l.takeWhile p).length = l.takeWhile p := by
  induction l with
  | nil => simp
  | cons a rest ih =>
      rw [List.takeWhile_cons]
      by_cases ha : p a = true
      · rw [if_pos ha]; simpa using ih
      · rw [if_neg ha]; simp

theorem getD_take (l : List Nat) (k i : Nat) (h : i < k) :
    (l.take k).getD i 0 = l.getD i 0 := by
  induction l generalizing k i with
  | nil => simp
  | cons a rest ih =>
      cases k with
      | zero => omega
      | succ m =>
          cases i with
          | zero => simp
          | succ j => simpa using ih m j (by omega)

theorem sorted_getD_le (l : List Nat) (hs : List.Pairwise (· < ·) l)
    (i j : Nat) (hij : i ≤ j) (hj : j < l.length) :
    l.getD i 0 ≤ l.getD j 0 := by
  have hi : i < l.length := lt_of_le_of_lt hij hj
  rw [getD_eq_get l i hi, getD_eq_get l j hj]
  rcases Nat.lt_or_ge i j with h | h
  · exact le_of_lt (List.pairwise_iff_get.mp hs ⟨i, hi⟩ ⟨j, hj⟩ h)
  · have : i = j := le_antisymm hij h
    subst this
    exact le_refl _

/-! ## Lemmas about the concurrent stack model -/

theorem u64_mod_succ (a : Nat) : (a % U64 + 1) % U64 = (a + 1) % U64 := by
  have h1 : 1 % U64 = 1 := Nat.mod_eq_of_lt (by norm_num [U64])
  rw [Nat.add_mod a 1 U64, h1]

theorem wf_lengthOf {T : Type} (l : List (SNode T)) (h : WFNodes l) :
    lengthOf l = l.length % U64 := by
  cases l with
  | nil => rfl
  | cons x rest =>
      simpa [lengthOf, List.length_cons] using h.1

theorem csSize_eq_lengthOf {T : Type} (S : CStack T) : csSize S = lengthOf S.a.nodes := rfl

theorem wf_primPush {T : Type} (s : PrimStack T) (nd : SNode T) (h : WFNodes s.nodes) :
    WFNodes (primPush s nd).nodes := by
  refine ⟨?_, h⟩
  rw [wf_lengthOf s.nodes h]
  exact u64_mod_succ _

/-- The running invariant of a single-threaded operation sequence: the
live stack `a` stays well-formed, and its true list length plus the
number of successful pops equals the starting length plus the number
of pushes. -/
theorem runOps_invariant {T : Type} (ops : List (SOp T)) :
    ∀ S : CStack T, WFNodes S.a.nodes →
      WFNodes (runOps S ops).1.a.nodes ∧
      (runOps S ops).1.a.nodes.length + succCount (runOps S ops).2
        = S.a.nodes.length + pushCount ops := by
  induction ops with
  | nil => intro S hS; simpa [runOps, succCount, pushCount] using hS
  | cons op rest ih =>
      intro S hS
      cases op with
      | push v =>
          have hwf : WFNodes (csPush S v).a.nodes := by
            rcases hb : S.b.nodes with _ | ⟨sh, bs⟩ <;>
              simp [csPush, primPop, hb] <;>
              exact wf_primPush _ _ hS
          have hlen : (csPush S v).a.nodes.length = S.a.nodes.length + 1 := by
            rcases hb : S.b.nodes with _ | ⟨sh, bs⟩ <;>
              simp [csPush, primPop, hb, primPush]
          obtain ⟨h1, h2⟩ := ih (csPush S v) hwf
          refine ⟨h1, ?_⟩
          simp only [runOps] at h2 ⊢
          rw [h2, hlen]
          simp [pushCount]
          omega
      | pop =>
          rcases hA : S.a.nodes with _ | ⟨x, xs⟩
          · have hpop : csPop S = (none, S) := by
              simp [csPop, primPop, hA]
            obtain ⟨h1, h2⟩ := ih S hS
            refine ⟨by simpa [runOps, hpop] using h1, ?_⟩
            simp only [runOps, hpop]
            have e1 : succCount (none :: (runOps S rest).2)
                = succCount (runOps S rest).2 := rfl
            have e2 : pushCount (SOp.pop :: rest) = pushCount rest := rfl
            rw [e1, e2]
            rw [hA] at h2
            exact h2
          · have hwf2 : WFNodes ((⟨⟨xs, (S.a.counter + 1) % U64⟩,
                primPush S.b x⟩ : CStack T)).a.nodes := by
              rw [hA] at hS
              exact hS.2
            have hpop : csPop S = (some x.value,
                (⟨⟨xs, (S.a.counter + 1) % U64⟩, primPush S.b x⟩ : CStack T)) := by
              simp [csPop, primPop, hA]
            obtain ⟨h1, h2⟩ :=
              ih (⟨⟨xs, (S.a.counter + 1) % U64⟩, primPush S.b x⟩ : CStack T) hwf2
            refine ⟨by simpa [runOps, hpop] using h1, ?_⟩
            simp only [runOps, hpop]
            have e1 : ∀ outs : List (Option T),
                succCount (some x.value :: outs) = succCount outs + 1 := fun _ => rfl
            have e2 : pushCount (SOp.pop :: rest) = pushCount rest := rfl
            rw [e1, e2]
            simp only [List.length_cons]
            dsimp only at h2 ⊢
            omega

theorem runOps_append {T : Type} (l1 : List (SOp T)) :
    ∀ (l2 : List (SOp T)) (S : CStack T),
      runOps S (l1 ++ l2)
        = ((runOps (runOps S l1).1 l2).1,
           (runOps S l1).2 ++ (runOps (runOps S l1).1 l2).2) := by
  induction l1 with
  | nil => intro l2 S; simp [runOps]
  | cons op rest ih =>
      intro l2 S
      cases op with
      | push v => simpa [runOps] using ih l2 (csPush S v)
      | pop => simp [runOps, ih l2]

/-- After pushing the values of `vs` in order, the live stack holds
`vs` reversed on top of what was there, and no pop output is
produced. -/
theorem runOps_map_push (vs : List Nat) :
    ∀ S : CStack Nat,
      (runOps S (vs.map SOp.push)).2 = [] ∧
      (runOps S (vs.map SOp.push)).1.a.nodes.map SNode.value
        = vs.reverse ++ S.a.nodes.map SNode.value := by
  induction vs with
  | nil => intro S; simp [runOps]
  | cons v rest ih =>
      intro S
      have hval : (csPush S v).a.nodes.map SNode.value
          = v :: S.a.nodes.map SNode.value := by
        rcases hb : S.b.nodes with _ | ⟨sh, bs⟩ <;>
          simp [csPush, primPop, hb, primPush]
      obtain ⟨h1, h2⟩ := ih (csPush S v)
      constructor
      · simpa [runOps] using h1
      · simp only [List.map_cons, runOps]
        rw [h2, hval]
        simp

/-- Draining a stack whose live list is `l` with `l.length` pops
returns exactly the stored values in order. -/
theorem runOps_drain (l : List (SNode Nat)) :
    ∀ S : CStack Nat, S.a.nodes = l →
      (runOps S (List.replicate l.length SOp.pop)).2
        = l.map (fun nd => some nd.value) := by
  induction l with
  | nil => intro S _; simp [runOps]
  | cons x xs ih =>
      intro S hS
      have hpop : csPop S = (some x.value,
          { a := { nodes := xs, counter := (S.a.counter + 1) % U64 },
            b := primPush S.b x }) := by
        simp [csPop, primPop, hS]
      simp only [List.length_cons, List.replicate_succ, runOps, hpop]
      rw [ih _ rfl]
      simp

theorem runOps_replicate_push_outs (v : ℕ) (k : Nat) :
    ∀ S : CStack Nat, (runOps S (List.replicate k (SOp.push v))).2 = [] := by
  induction k with
  | zero => intro S; simp [runOps]
  | succ m ih => intro S; simpa [List.replicate_succ, runOps] using ih (csPush S v)

theorem pushCount_replicate (v : ℕ) (k : Nat) :
    pushCount (List.replicate k (SOp.push v)) = k := by
  induction k with
  | zero => rfl
  | succ m ih => simp [List.replicate_succ, pushCount, ih]

/-- After `k` pushes into a fresh stack, `size()` reports `k` reduced
modulo `2 ^ 64` and no pop output has been produced. -/
theorem runPushes_size (k : Nat) :
    csSize (runOps (emptyCS : CStack Nat) (List.replicate k (SOp.push 0))).1 = k % U64 ∧
    (runOps (emptyCS : CStack Nat) (List.replicate k (SOp.push 0))).2 = [] := by
  obtain ⟨hwf, hlen⟩ :=
    runOps_invariant (List.replicate k (SOp.push 0)) (emptyCS : CStack Nat) trivial
  have houts := runOps_replicate_push_outs 0 k (emptyCS : CStack Nat)
  refine ⟨?_, houts⟩
  have h0 : (emptyCS : CStack Nat).a.nodes.length = 0 := rfl
  rw [houts] at hlen
  have hs0 : succCount ([] : List (Option Nat)) = 0 := rfl
  rw [hs0, h0, pushCount_replicate] at hlen
  have hlen2 : (runOps (emptyCS : CStack Nat)
      (List.replicate k (SOp.push 0))).1.a.nodes.length = k := by omega
  rw [csSize_eq_lengthOf, wf_lengthOf _ hwf, hlen2]

theorem pushIter_counter (k : Nat) : (pushIter k).counter = k % U64 := by
  induction k with
  | zero => rfl
  | succ m ih =>
      simp only [pushIter, primPush]
      rw [ih]
      exact u64_mod_succ m

/-! ## Lemmas about the pool allocator model -/

/-- Two consecutive wrapping decrements collapse into one: subtracting
`a` and then `b`, reducing modulo `m` each time, is subtracting `a + b`
and reducing once. -/
theorem wrap_sub_sub (m x a b : Int) :
    ((x - a) % m - b) % m = (x - (a + b)) % m := by
  have h1 : ((x - a) % m - b) % m = ((x - a) % m % m - b % m) % m :=
    Int.sub_emod _ _ _
  have h2 : (x - (a + b)) % m = ((x - a) - b) % m := by
    rw [sub_add_eq_sub_sub]
  rw [h1, Int.emod_emod_of_dvd _ dvd_rfl, h2, Int.sub_emod (x - a) b m]

theorem drainStack_eq (sz : Nat) (st : List Nat) :
    ∀ Q : PoolState, Q.large_allocated % (Q.long_mod : Int) = Q.large_allocated →
      drainStack sz st Q
        = { Q with
              large_allocated :=
                (Q.large_allocated - ((st.length * sz : Nat) : Int)) % (Q.long_mod : Int),
              sys_frees := st.reverse ++ Q.sys_frees } := by
  induction st with
  | nil =>
      intro Q hQ
      cases Q
      simp only [drainStack, List.length_nil, Nat.zero_mul, Nat.cast_zero, sub_zero,
        List.reverse_nil, List.nil_append]
      simp only [PoolState.mk.injEq, and_true, true_and]
      exact hQ.symm
  | cons ptr rest ih =>
      intro Q hQ
      rw [drainStack]
      have hQ2 : ((Q.large_allocated - (sz : Int)) % (Q.long_mod : Int)) % (Q.long_mod : Int)
          = (Q.large_allocated - (sz : Int)) % (Q.long_mod : Int) :=
        Int.emod_emod_of_dvd _ dvd_rfl
      rw [ih _ hQ2]
      cases Q
      simp only [PoolState.mk.injEq, List.reverse_cons, List.append_assoc,
        List.singleton_append, List.length_cons, and_true, true_and]
      rw [wrap_sub_sub]
      have hc : ((sz : Int) + ((rest.length * sz : Nat) : Int))
          = (((rest.length + 1) * sz : Nat) : Int) := by
        push_cast
        ring
      rw [hc]

theorem drainedPtrs_shift (pairs : List (List Nat × Nat)) :
    ∀ acc : List Nat,
      pairs.foldl (fun a pr => pr.1.reverse ++ a) acc = drainedPtrs pairs ++ acc := by
  induction pairs with
  | nil => intro acc; simp [drainedPtrs]
  | cons pr rest ih =>
      intro acc
      have h1 : drainedPtrs (pr :: rest) = drainedPtrs rest ++ pr.1.reverse := by
        show List.foldl _ (pr.1.reverse ++ []) rest = _
        rw [List.append_nil, ih pr.1.reverse]
      simp only [List.foldl_cons]
      rw [ih (pr.1.reverse ++ acc), h1, List.append_assoc]

theorem clear_foldl (pairs : List (List Nat × Nat)) :
    ∀ Q : PoolState, Q.large_allocated % (Q.long_mod : Int) = Q.large_allocated →
      pairs.foldl (fun A pr => drainStack pr.2 pr.1 A) Q
        = { Q with
              large_allocated :=
                (Q.large_allocated
                    - (((pairs.map (fun pr => pr.1.length * pr.2)).sum : Nat) : Int))
                  % (Q.long_mod : Int),
              sys_frees := drainedPtrs pairs ++ Q.sys_frees } := by
  induction pairs with
  | nil =>
      intro Q hQ
      cases Q
      simp only [List.foldl_nil, List.map_nil, List.sum_nil, Nat.cast_zero, sub_zero,
        drainedPtrs, List.nil_append]
      simp only [PoolState.mk.injEq, and_true, true_and]
      exact hQ.symm
  | cons pr rest ih =>
      intro Q hQ
      simp only [List.foldl_cons]
      rw [drainStack_eq pr.2 pr.1 Q hQ]
      have hQ2 : ((Q.large_allocated - ((pr.1.length * pr.2 : Nat) : Int))
            % (Q.long_mod : Int)) % (Q.long_mod : Int)
          = (Q.large_allocated - ((pr.1.length * pr.2 : Nat) : Int)) % (Q.long_mod : Int) :=
        Int.emod_emod_of_dvd _ dvd_rfl
      rw [ih _ hQ2]
      cases Q
      simp only [PoolState.mk.injEq, List.map_cons, List.sum_cons, and_true, true_and]
      constructor
      · rw [wrap_sub_sub]
        have hc : (((pr.1.length * pr.2 : Nat) : Int)
              + (((rest.map (fun pr => pr.1.length * pr.2)).sum : Nat) : Int))
            = ((pr.1.length * pr.2
                + (rest.map (fun pr => pr.1.length * pr.2)).sum : Nat) : Int) := by
          push_cast
          ring
        rw [hc]
      · have h1 : drainedPtrs (pr :: rest) = drainedPtrs rest ++ pr.1.reverse := by
          show List.foldl _ (pr.1.reverse ++ []) rest = _
          rw [List.append_nil, drainedPtrs_shift rest pr.1.reverse]
        rw [h1, List.append_assoc]

theorem drainedPtrs_perm (pairs : List (List Nat × Nat)) :
    List.Perm (drainedPtrs pairs) (pairs.map Prod.fst).flatten := by
  induction pairs with
  | nil => simp [drainedPtrs]
  | cons pr rest ih =>
      have h1 : drainedPtrs (pr :: rest) = drainedPtrs rest ++ pr.1.reverse := by
        show List.foldl _ (pr.1.reverse ++ []) rest = _
        rw [List.append_nil, drainedPtrs_shift rest pr.1.reverse]
      rw [h1]
      simp only [List.map_cons, List.flatten_cons]
      exact List.Perm.trans List.perm_append_comm
        (List.Perm.append (List.reverse_perm pr.1) ih)

theorem checkSmallSizes_none_iff (l : List Nat) :
    ∀ prev : Nat,
      checkSmallSizes prev l = none
        ↔ ((∀ s ∈ l, 8 ≤ s) ∧ List.Chain (· < ·) prev l) := by
  induction l with
  | nil =>
      intro prev
      simp only [checkSmallSizes]
      constructor
      · intro _
        exact ⟨by simp, List.Chain.nil⟩
      · intro _
        trivial
  | cons s rest ih =>
      intro prev
      by_cases h8 : s < 8
      · simp only [checkSmallSizes, if_pos h8]
        constructor
        · intro h
          exact absurd h (by simp)
        · rintro ⟨hall, _⟩
          have := hall s (by simp)
          omega
      · by_cases hps : prev < s
        · simp only [checkSmallSizes, if_neg h8, if_neg (not_not_intro hps)]
          rw [ih s]
          constructor
          · rintro ⟨hall, hchain⟩
            refine ⟨?_, List.chain_cons.mpr ⟨hps, hchain⟩⟩
            intro x hx
            rcases List.mem_cons.mp hx with h | h
            · omega
            · exact hall x h
          · rintro ⟨hall, hchain⟩
            refine ⟨fun x hx => hall x (by simp [hx]), (List.chain_cons.mp hchain).2⟩
        · simp only [checkSmallSizes, if_neg h8, if_pos (by exact hps)]
          constructor
          · intro h
            exact absurd h (by simp)
          · rintro ⟨_, hchain⟩
            exact absurd (List.chain_cons.mp hchain).1 hps

theorem validPool_num_small_le (P : PoolState) (h : ValidPool P) :
    P.num_small ≤ P.sizes.length := by
  obtain ⟨-, -, -, h4, -, -, -, -, -, -, -⟩ := h
  rw [h4]
  exact length_takeWhile_le' _ _

theorem validPool_max_small_le (P : PoolState) (h : ValidPool P) :
    P.max_small ≤ P.max_size := by
  obtain ⟨h1, h2, h3, h4, h5, h6, -, -, -, -, -⟩ := h
  by_cases hz : P.num_small = 0
  · rw [h5, if_pos hz, h6]
    exact Nat.zero_le _
  · rw [h5, if_neg hz, h6, h3]
    have hlen : 0 < P.sizes.length := List.length_pos.mpr h1
    have hns : P.num_small ≤ P.sizes.length := by
      rw [h4]; exact length_takeWhile_le' _ _
    exact sorted_getD_le P.sizes h2 (P.num_small - 1) (P.sizes.length - 1)
      (by omega) (by omega)

/-- Every element of the small prefix of a valid pool's size list is at
most `max_small`. -/
theorem take_num_small_le (P : PoolState) (h : ValidPool P)
    (hpos : 0 < P.num_small) :
    ∀ x ∈ P.sizes.take P.num_small, x ≤ P.max_small := by
  obtain ⟨-, h2, -, h4, h5, -, -, -, -, -, -⟩ := h
  intro x hx
  obtain ⟨i, hi⟩ := List.mem_iff_get.mp hx
  have hilt : (i : Nat) < P.num_small := by
    have := i.isLt
    simp [List.length_take] at this
    omega
  have hns : P.num_small ≤ P.sizes.length := by
    rw [h4]; exact length_takeWhile_le' _ _
  have hx1 : x = (P.sizes.take P.num_small).getD i 0 := by
    rw [getD_eq_get _ _ i.isLt, hi]
  rw [hx1, getD_take _ _ _ hilt, h5, if_neg (by omega)]
  exact sorted_getD_le P.sizes h2 i (P.num_small - 1) (by omega) (by omega)

/-! ## Claim theorems -/

/-- C10: constructing a `pool_allocator` from an empty bucket-size list
is not rejected by any validation; the constructor's very first read,
`sizes[num_buckets - 1]` with `num_buckets = 0`, is an out-of-bounds
vector access (the model's distinguished `outOfBounds` outcome, raised
before any configuration check runs), so a non-empty size list is an
unstated precondition of construction. -/
theorem C10_empty_sizes : mkPoolAllocator [] = Except.error ConfigErr.outOfBounds := rfl

/-- C9 (evaluation at the failing configuration): the operand-size
precondition is enforced at compile time (`cas16Compiles` rejects any
`sizeof(T) ≠ 16`), and with a backend present `cas16` swaps exactly
when the current bytes equal the expected ones; but in a configuration
with no double-width CAS backend (neither GNUC+MCX16 nor Windows,
`selectBackend = none`) the function still compiles — the `#else`
branch of the source holds only a comment, not an `#error` — so the
build does not fail, contradicting the claim. -/
theorem C9_no_backend_builds :
    selectBackend false false = none ∧
    cas16Compiles 16 false false = true ∧
    cas16Compiles 8 false false = false ∧
    cas16 ((3, 4) : Nat × Nat) (3, 4) (5, 7) = ((5, 7), true) ∧
    cas16 ((1, 2) : Nat × Nat) (3, 4) (5, 7) = ((1, 2), false) :=
  ⟨rfl, rfl, rfl, by decide, by decide⟩

/-- C3: the spec's worked scenario on bucket list
`{16, 64, 1 << 20, 1 << 21}`: `allocate(10)` takes the 16-byte small
bucket path (sub-allocator of bucket 0, no system traffic);
`allocate(70)` takes the `1 << 20` large bucket path and, on the pool
miss, performs a fresh 64-byte-aligned `1 << 20`-byte system
allocation; after `deallocate(ptr, 70)` the block sits on that
bucket's stack, and a second `allocate(70)` is served from the stack
with no new system allocation and the large-allocated counter
unchanged. -/
theorem C3_scenario :
    mkPoolAllocator demoSizes = Except.ok P0 ∧
    P0.sizes.getD 0 0 = 16 ∧
    step1.2.small_log = [(0, SmallOp.alloc step1.1)] ∧
    step1.2.sys_allocs = [] ∧
    step1.2.large_buckets = P0.large_buckets ∧
    step2.2.sys_allocs = [(step2.1, 1048576)] ∧
    1048576 % 64 = 0 ∧
    step2.2.small_log = step1.2.small_log ∧
    step2.2.large_allocated = 70 ∧
    scen3.large_buckets = [[step2.1], []] ∧
    scen3.sys_allocs = step2.2.sys_allocs ∧
    scen3.large_allocated = step2.2.large_allocated ∧
    step4.1 = step2.1 ∧
    step4.2.sys_allocs = scen3.sys_allocs ∧
    step4.2.large_allocated = scen3.large_allocated ∧
    step4.2.large_buckets = [[], []] :=
  ⟨rfl, rfl, rfl, rfl, rfl, rfl, rfl, rfl, by decide, rfl, rfl, by decide,
   rfl, rfl, by decide, rfl⟩

/-- C8 (amended): every successful `prim_concurrent_stack` push or pop
installs a head whose `uint64_t` counter is the old counter plus one
reduced modulo `2 ^ 64`; consequently along any run of fewer than
`2 ^ 64` operations (here traced for iterated pushes) the head counter
is strictly increasing, hence never reused within such a run. -/
theorem C8_counter_amended :
    (∀ (T : Type) (s : PrimStack T) (nd : SNode T),
        (primPush s nd).counter = (s.counter + 1) % U64) ∧
    (∀ (T : Type) (s : PrimStack T), s.nodes ≠ [] →
        (primPop s).2.counter = (s.counter + 1) % U64) ∧
    (∀ j k : Nat, j < k → k < U64 →
        (pushIter j).counter < (pushIter k).counter) := by
  refine ⟨fun T s nd => rfl, ?_, ?_⟩
  · intro T s hs
    rcases h : s.nodes with _ | ⟨x, xs⟩
    · exact absurd h hs
    · simp [primPop, h]
  · intro j k hjk hk
    rw [pushIter_counter, pushIter_counter,
        Nat.mod_eq_of_lt (by omega), Nat.mod_eq_of_lt hk]
    exact hjk

/-- C8 witness: the amended theorem applied at concrete inputs — a pop
from a one-element primitive stack with counter 5, and the counter
trace after one versus two pushes. -/
theorem C8_witness :
    (primPop ({ nodes := [{ value := 3, length := 1 }], counter := 5 } : PrimStack Nat)).2.counter
      = (5 + 1) % U64 ∧
    (pushIter 1).counter < (pushIter 2).counter :=
  ⟨C8_counter_amended.2.1 Nat _ (by simp),
   C8_counter_amended.2.2 1 2 (by norm_num) (by norm_num [U64])⟩

/-- C8 counterexample: after `2 ^ 64` successful pushes the head
counter has wrapped back to its initial value, so across arbitrary
sequences the counter is not monotonically increasing and is reused,
refuting the claim's unbounded monotonicity. -/
theorem C8_counterexample : (pushIter U64).counter = (pushIter 0).counter := by
  rw [pushIter_counter U64, pushIter_counter 0, Nat.mod_self, Nat.zero_mod]

/-- C2 (amended): pushing the values of `vs` in order and then popping
`vs.length` times yields exactly the pushed values in reverse push
order, every pop succeeding — hence for such drain sequences the
multiset popped equals the multiset pushed, with no loss and no
duplication. -/
theorem C2_push_pop_reverse_amended (vs : List Nat) :
    (runOps emptyCS (vs.map SOp.push ++ List.replicate vs.length SOp.pop)).2
      = vs.reverse.map some := by
  obtain ⟨h1, h2⟩ := runOps_map_push vs emptyCS
  have hlen : (runOps emptyCS (vs.map SOp.push)).1.a.nodes.length = vs.length := by
    have h3 := congrArg List.length h2
    simpa using h3
  rw [runOps_append, h1]
  have h3 := runOps_drain ((runOps emptyCS (vs.map SOp.push)).1.a.nodes)
    (runOps emptyCS (vs.map SOp.push)).1 rfl
  rw [hlen] at h3
  rw [h3]
  have h4 : ((runOps emptyCS (vs.map SOp.push)).1.a.nodes.map
        (fun nd => some nd.value))
      = ((runOps emptyCS (vs.map SOp.push)).1.a.nodes.map SNode.value).map some := by
    rw [List.map_map]
    rfl
  rw [List.nil_append, h4, h2]
  simp [emptyCS]

/-- C2 counterexample: for the single-operation sequence `[push 5]` the
multiset of values returned by successful pops (empty) differs from the
multiset of values pushed (`{5}`), so the claim's multiset equality
fails for sequences that do not pop everything they push. -/
theorem C2_counterexample :
    ¬ List.Perm ((runOps (emptyCS : CStack Nat) [SOp.push 5]).2.filterMap id) [5] := by
  have e : (runOps (emptyCS : CStack Nat) [SOp.push 5]).2.filterMap id = [] := rfl
  rw [e]
  intro h
  simpa using h.length_eq

/-- C5 (amended): after any single-threaded operation sequence,
`concurrent_stack::size()` returns the number of pushes minus the
number of successful pops reduced modulo `2 ^ 64` (the width of the
memoized `size_t` length); in particular it equals pushes minus
successful pops exactly whenever the sequence contains fewer than
`2 ^ 64` pushes. -/
theorem C5_size_amended (ops : List (SOp Nat)) :
    csSize (runOps (emptyCS : CStack Nat) ops).1
      = (pushCount ops - succCount (runOps (emptyCS : CStack Nat) ops).2) % U64 ∧
    (pushCount ops < U64 →
      csSize (runOps (emptyCS : CStack Nat) ops).1
        = pushCount ops - succCount (runOps (emptyCS : CStack Nat) ops).2) := by
  obtain ⟨hwf, hlen⟩ := runOps_invariant ops (emptyCS : CStack Nat) trivial
  have h0 : (emptyCS : CStack Nat).a.nodes.length = 0 := rfl
  rw [h0] at hlen
  have hsz : csSize (runOps (emptyCS : CStack Nat) ops).1
      = (runOps (emptyCS : CStack Nat) ops).1.a.nodes.length % U64 := by
    rw [csSize_eq_lengthOf]
    exact wf_lengthOf _ hwf
  constructor
  · rw [hsz]
    congr 1
    omega
  · intro hb
    rw [hsz]
    have hl2 : (runOps (emptyCS : CStack Nat) ops).1.a.nodes.length
        = pushCount ops - succCount (runOps (emptyCS : CStack Nat) ops).2 := by omega
    rw [hl2]
    exact Nat.mod_eq_of_lt (by omega)

/-- C5 witness: the amended theorem applied to the concrete sequence
`[push 7, pop]`, whose push count is below `2 ^ 64`. -/
theorem C5_witness :
    csSize (runOps (emptyCS : CStack Nat) [SOp.push 7, SOp.pop]).1
      = pushCount [SOp.push 7, SOp.pop]
        - succCount (runOps (emptyCS : CStack Nat) [SOp.push 7, SOp.pop]).2 :=
  (C5_size_amended [SOp.push 7, SOp.pop]).2 (by decide)

/-- C5 counterexample: after `2 ^ 64` pushes and no pops the memoized
`size_t` length has wrapped, so `size()` returns 0 instead of the true
difference `2 ^ 64`, refuting the claim for arbitrary sequences. -/
theorem C5_counterexample :
    csSize (runOps (emptyCS : CStack Nat) hugePushes).1
      ≠ pushCount hugePushes - succCount (runOps (emptyCS : CStack Nat) hugePushes).2 := by
  obtain ⟨hsz, houts⟩ := runPushes_size U64
  have he : hugePushes = List.replicate U64 (SOp.push 0) := rfl
  rw [he, hsz, houts, pushCount_replicate, Nat.mod_self]
  have h1 : succCount ([] : List (Option Nat)) = 0 := rfl
  rw [h1]
  have hU : 0 < U64 := by norm_num [U64]
  omega

theorem take_smallPart (l : List Nat) : l.take (smallPart l).length = smallPart l :=
  take_takeWhile_length _ l

theorem small_ok_iff (l : List Nat) :
    ((∀ s ∈ l, 8 ≤ s) ∧ List.Chain (· < ·) 0 l)
      ↔ ((∀ s ∈ l, 8 ≤ s) ∧ List.Pairwise (· < ·) l) := by
  constructor
  · rintro ⟨h8, hchain⟩
    exact ⟨h8, (List.pairwise_cons.mp (List.chain_iff_pairwise.mp hchain)).2⟩
  · rintro ⟨h8, hpw⟩
    refine ⟨h8, List.chain_iff_pairwise.mpr (List.pairwise_cons.mpr ⟨?_, hpw⟩)⟩
    intro x hx
    have := h8 x hx
    omega

/-- C4 (amended): the constructor validates only the small-range
prefix of the bucket-size list (the maximal prefix of sizes below
`large_threshold`): for every non-empty size list, construction
succeeds exactly when that prefix is strictly increasing with every
entry at least 8 — the ordering of the large-range sizes is never
checked. -/
theorem C4_construction_amended (sizes : List Nat) (h : sizes ≠ []) :
    (∃ P, mkPoolAllocator sizes = Except.ok P)
      ↔ ((∀ s ∈ smallPart sizes, 8 ≤ s) ∧ List.Pairwise (· < ·) (smallPart sizes)) := by
  have hlen : 0 < sizes.length := List.length_pos.mpr h
  have hget : sizes.get? (sizes.length - 1)
      = some (sizes.get ⟨sizes.length - 1, by omega⟩) :=
    List.get?_eq_get (by omega)
  have key : (∃ P, mkPoolAllocator sizes = Except.ok P)
      ↔ checkSmallSizes 0 (smallPart sizes) = none := by
    unfold mkPoolAllocator
    simp only [hget, take_smallPart]
    cases hc : checkSmallSizes 0 (smallPart sizes) <;> simp [hc]
  rw [key, checkSmallSizes_none_iff, small_ok_iff]

/-- C4 witness: the amended theorem applied to the concrete list
`[16, 64]`, whose small prefix is strictly increasing with minimum
16. -/
theorem C4_witness : ∃ P, mkPoolAllocator [16, 64] = Except.ok P :=
  (C4_construction_amended [16, 64] (by decide)).mpr (by decide)

/-- C4 counterexample: the two-element list `[1048640, 1048576]` is
not strictly increasing (it strictly decreases), yet both entries are
at or above `large_threshold`, so the constructor's validation loop
never inspects them and construction succeeds — refuting the claim
that every non-increasing list fails with a configuration error. -/
theorem C4_counterexample :
    ¬ List.Pairwise (· < ·) [1048640, 1048576] ∧
    ∃ P, mkPoolAllocator [1048640, 1048576] = Except.ok P :=
  ⟨by decide, _, rfl⟩

/-- C6 (amended): for every request `n` strictly above the largest
configured bucket and representable as a `size_t` (`n < 2 ^ 64`),
`allocate(n)` performs a fresh system allocation of `n` rounded up to
a multiple of 64 bytes in `size_t` arithmetic (no bucket rounding; the
rounding wraps, so `SIZE_MAX` yields a 0-byte request), without
consulting any bucket's stack or sub-allocator, and increments the
large-allocated counter by `n` at the platform's `long` width; the
matching `deallocate(ptr, n)` returns the block directly to the
system, pushes no bucket's stack and decrements the counter by `n` at
the same width. -/
theorem C6_oversized_amended (P : PoolState) (ptr n : Nat)
    (hv : ValidPool P) (hn : P.max_size < n) (_hn64 : n < U64) :
    (allocate P n).1 = P.next_id ∧
    (allocate P n).2.sys_allocs = (P.next_id, round_to_align n) :: P.sys_allocs ∧
    (allocate P n).2.large_buckets = P.large_buckets ∧
    (allocate P n).2.small_log = P.small_log ∧
    (allocate P n).2.large_allocated
      = (P.large_allocated + (n : Int)) % (P.long_mod : Int) ∧
    deallocate P ptr n
      = { P with
            sys_frees := ptr :: P.sys_frees,
            large_allocated := (P.large_allocated - (n : Int)) % (P.long_mod : Int) } := by
  have hms : P.max_small < n := lt_of_le_of_lt (validPool_max_small_le P hv) hn
  simp only [allocate, allocate_large, deallocate, deallocate_large, freshAlloc,
    if_pos hms, if_neg (not_le.mpr hn), if_pos hn]
  exact ⟨trivial, trivial, trivial, trivial, trivial, trivial⟩

/-- C6 witness: the amended theorem applied to the scenario pool `P0`
(largest bucket `1 << 21`) at the oversized request `2097153`. -/
theorem C6_witness :
    (allocate P0 2097153).1 = P0.next_id ∧
    (allocate P0 2097153).2.sys_allocs
      = (P0.next_id, round_to_align 2097153) :: P0.sys_allocs ∧
    (allocate P0 2097153).2.large_buckets = P0.large_buckets ∧
    (allocate P0 2097153).2.small_log = P0.small_log ∧
    (allocate P0 2097153).2.large_allocated
      = (P0.large_allocated + ((2097153 : Nat) : Int)) % (P0.long_mod : Int) ∧
    deallocate P0 99 2097153
      = { P0 with
            sys_frees := 99 :: P0.sys_frees,
            large_allocated :=
              (P0.large_allocated - ((2097153 : Nat) : Int)) % (P0.long_mod : Int) } :=
  C6_oversized_amended P0 99 2097153 (by decide) (by decide) (by decide)

/-- C6 counterexample: on the scenario pool `P0`, the oversized
request `n = 2097153` (one byte above the largest bucket) is served by
a system allocation of `2097216` bytes — `n` rounded up to the next
multiple of 64 — not of exactly `n` bytes as the claim states. -/
theorem C6_counterexample :
    P0.max_size < 2097153 ∧
    ¬ (allocate P0 2097153).2.sys_allocs
        = ((allocate P0 2097153).1, 2097153) :: P0.sys_allocs :=
  ⟨by decide, by decide⟩

/-- C7: `clear()` (called with no concurrent operation, as the
single-threaded model assumes) empties every large bucket's recycling
stack, returns each recovered block to the system (the freed
identifiers are exactly the stacked ones, joined, up to order) while
decrementing the large-allocated counter for each block by its bucket
size — a wrapping `long` decrement, so the net effect is the old
counter minus the total stacked bytes at the platform's `long` width —
and leaves the small buckets' sub-allocator state (the log of calls
into them) and the configuration untouched. -/
theorem C7_clear_frame (P : PoolState) (hv : ValidPool P) :
    (clear P).large_buckets = List.replicate P.large_buckets.length [] ∧
    (clear P).small_log = P.small_log ∧
    (clear P).sizes = P.sizes ∧
    (clear P).num_small = P.num_small ∧
    (clear P).large_allocated
      = (P.large_allocated - (totalLargeBytes P : Int)) % (P.long_mod : Int) ∧
    List.Perm (clear P).sys_frees (P.large_buckets.flatten ++ P.sys_frees) := by
  have hcanon : P.large_allocated % (P.long_mod : Int) = P.large_allocated :=
    Int.emod_eq_of_lt hv.2.2.2.2.2.2.2.2.2.1 hv.2.2.2.2.2.2.2.2.2.2
  have hfold := clear_foldl (P.large_buckets.zip (P.sizes.drop P.num_small)) P hcanon
  have hclear : clear P
      = { P with
            large_allocated :=
              (P.large_allocated - ((((P.large_buckets.zip (P.sizes.drop P.num_small)).map
                  (fun pr => pr.1.length * pr.2)).sum : Nat) : Int)) % (P.long_mod : Int),
            sys_frees :=
              drainedPtrs (P.large_buckets.zip (P.sizes.drop P.num_small)) ++ P.sys_frees,
            large_buckets := P.large_buckets.map (fun _ => []) } := by
    simp only [clear]
    rw [hfold]
  rw [hclear]
  have hmap : P.large_buckets.map (fun _ => ([] : List Nat))
      = List.replicate P.large_buckets.length [] := by
    exact List.map_const P.large_buckets ([] : List Nat)
  refine ⟨hmap, rfl, rfl, rfl, rfl, ?_⟩
  have hfst : (P.large_buckets.zip (P.sizes.drop P.num_small)).map Prod.fst
      = P.large_buckets := by
    apply List.map_fst_zip
    obtain ⟨-, -, h3, h4, -, -, h7, -, -, -, -⟩ := hv
    have hns : P.num_small ≤ P.sizes.length := by
      rw [h4]
      exact length_takeWhile_le' _ _
    rw [List.length_drop, h7, h3]
  have hperm := drainedPtrs_perm (P.large_buckets.zip (P.sizes.drop P.num_small))
  rw [hfst] at hperm
  exact hperm.append_right P.sys_frees

/-- C7 witness: the theorem applied to the scenario state `scen3`, in
which the `1 << 20` bucket's stack holds one recycled block. -/
theorem C7_witness :
    (clear scen3).large_buckets = List.replicate scen3.large_buckets.length [] ∧
    (clear scen3).small_log = scen3.small_log ∧
    (clear scen3).sizes = scen3.sizes ∧
    (clear scen3).num_small = scen3.num_small ∧
    (clear scen3).large_allocated
      = (scen3.large_allocated - (totalLargeBytes scen3 : Int)) % (scen3.long_mod : Int) ∧
    List.Perm (clear scen3).sys_frees (scen3.large_buckets.flatten ++ scen3.sys_frees) :=
  C7_clear_frame scen3 (by decide)

theorem smallPart_getD_lt (l : List Nat) (i : Nat) (h : i < (smallPart l).length) :
    l.getD i 0 < large_threshold := by
  have h2 := takeWhile_getD_true (fun s => decide (s < large_threshold)) l i h
  simpa using h2

theorem smallPart_length_getD_ge (l : List Nat) (h : (smallPart l).length < l.length) :
    large_threshold ≤ l.getD (smallPart l).length 0 := by
  have h2 := takeWhile_length_getD_false (fun s => decide (s < large_threshold)) l h
  simpa using h2

/-- C1 (amended): on a valid pool, for every request size `n` at most
the largest configured bucket size — provided `n ≥ 1` or at least one
small bucket is configured — `allocate(n)` selects the smallest
configured bucket size that is at least `n`; when that bucket is small
(size below `large_threshold`) the call is delegated to that bucket's
sub-allocator, and when it is large the bucket's recycling stack is
popped first, a miss producing a fresh system allocation sized to the
bucket size (not `n`) rounded up to a multiple of 64 bytes and
incrementing the large-allocated byte counter by `n`.  (The proviso is
forced by the counterexample: with no small bucket configured,
`allocate(0)` takes the small path instead.) -/
theorem C1_allocate_amended (P : PoolState) (n : Nat) (hv : ValidPool P)
    (hn : n ≤ P.max_size) (hpos : 0 < n ∨ 0 < P.num_small) : C1Pred P n := by
  have hne := hv.1
  have hsort := hv.2.1
  have hnb := hv.2.2.1
  have hns := hv.2.2.2.1
  have hms := hv.2.2.2.2.1
  have hmx := hv.2.2.2.2.2.1
  have hlen : 0 < P.sizes.length := List.length_pos.mpr hne
  have hnsle : P.num_small ≤ P.sizes.length := by
    rw [hns]
    exact length_takeWhile_le' _ _
  have hplast : (fun s => decide (n ≤ s)) (P.sizes.getD (P.sizes.length - 1) 0) = true := by
    simp only [decide_eq_true_eq]
    have hx : P.max_size = P.sizes.getD (P.sizes.length - 1) 0 := by rw [hmx, hnb]
    omega
  have hble : P.sizes.findIdx (fun s => decide (n ≤ s)) ≤ P.sizes.length - 1 :=
    findIdx_le_of_getD _ _ _ (by omega) hplast
  have hblt : P.sizes.findIdx (fun s => decide (n ≤ s)) < P.sizes.length := by omega
  by_cases hcase : n ≤ P.max_small
  · -- the selected bucket is a small one
    have hns0 : 0 < P.num_small := by
      rcases hpos with hn0 | h
      · by_contra hz
        have hz0 : P.num_small = 0 := by omega
        rw [hms, if_pos hz0] at hcase
        omega
      · exact h
    have hmseq : P.max_small = P.sizes.getD (P.num_small - 1) 0 := by
      rw [hms, if_neg (by omega)]
    have hpms : (fun s => decide (n ≤ s)) (P.sizes.getD (P.num_small - 1) 0) = true := by
      simp only [decide_eq_true_eq]
      omega
    have hbltns : P.sizes.findIdx (fun s => decide (n ≤ s)) < P.num_small := by
      have h2 := findIdx_le_of_getD (fun s => decide (n ≤ s)) P.sizes
        (P.num_small - 1) (by omega) hpms
      omega
    have hsmall : P.sizes.getD (P.sizes.findIdx (fun s => decide (n ≤ s))) 0
        < large_threshold := by
      apply smallPart_getD_lt
      rw [← hns]
      exact hbltns
    have hfb : findBucket P.sizes 0 n = P.sizes.findIdx (fun s => decide (n ≤ s)) := by
      unfold findBucket
      rw [List.drop_zero, scanFrom_zero_eq_findIdx]
    have hnot : ¬ n > P.max_small := by omega
    unfold C1Pred leastBucketIdx
    rw [if_pos hsmall]
    unfold smallPathProp
    simp only [allocate, if_neg hnot, hfb]
    simp
  · -- the selected bucket is a large one
    push_neg at hcase
    have hallfalse : ∀ x ∈ P.sizes.take P.num_small,
        (fun s => decide (n ≤ s)) x = false := by
      intro x hx
      rcases Nat.eq_zero_or_pos P.num_small with hz | hpos2
      · rw [hz] at hx
        simp at hx
      · have hle := take_num_small_le P hv hpos2 x hx
        simp only [decide_eq_false_iff_not]
        omega
    have hfidx : P.sizes.findIdx (fun s => decide (n ≤ s))
        = P.num_small + (P.sizes.drop P.num_small).findIdx (fun s => decide (n ≤ s)) := by
      conv_lhs => rw [← List.take_append_drop P.num_small P.sizes]
      rw [findIdx_append_all_false _ _ _ hallfalse, List.length_take]
      rw [min_eq_left hnsle]
    have hfbL : findBucket P.sizes P.num_small n
        = P.sizes.findIdx (fun s => decide (n ≤ s)) := by
      unfold findBucket
      rw [scanFrom_shift, scanFrom_zero_eq_findIdx, hfidx]
    have hble2 : P.num_small ≤ P.sizes.findIdx (fun s => decide (n ≤ s)) := by omega
    have hnslt : P.num_small < P.sizes.length := by omega
    have hTle : large_threshold ≤ P.sizes.getD P.num_small 0 := by
      have h2 := smallPart_length_getD_ge P.sizes (by rw [← hns]; exact hnslt)
      rw [← hns] at h2
      exact h2
    have hlarge : ¬ P.sizes.getD (P.sizes.findIdx (fun s => decide (n ≤ s))) 0
        < large_threshold := by
      have h3 := sorted_getD_le P.sizes hsort P.num_small
        (P.sizes.findIdx (fun s => decide (n ≤ s))) hble2 hblt
      omega
    unfold C1Pred leastBucketIdx
    rw [if_neg hlarge]
    unfold largePathProp
    simp only [allocate, if_pos (show n > P.max_small from hcase), allocate_large,
      if_pos hn, hfbL]
    cases hstack : P.large_buckets.getD
        (P.sizes.findIdx (fun s => decide (n ≤ s)) - P.num_small) [] with
    | nil =>
        simp only [hstack, freshAlloc]
        simp
    | cons q rest =>
        simp only [hstack]
        simp

/-- C1 witness: the amended theorem applied to the scenario pool `P0`
at the request size 70, which selects the large `1 << 20` bucket. -/
theorem C1_witness : C1Pred P0 70 :=
  C1_allocate_amended P0 70 (by decide) (by decide) (Or.inl (by decide))

/-- C1 counterexample: on the pool constructed from the single-bucket
list `[1 << 20]` — no small bucket, so `max_small = 0` — the request
`n = 0` selects bucket 0, whose size `1 << 20` is not below
`large_threshold`, so the claim demands the large-bucket behaviour
(pop the stack; on the miss, a fresh system allocation); the code
instead compares `n > max_small` (false for 0) and takes the small
path, calling the never-constructed `small_allocators[0]` and
performing no system allocation, so the claim fails at this input. -/
theorem C1_counterexample :
    mkPoolAllocator [1048576] = Except.ok P1 ∧ ¬ C1Pred P1 0 := by
  refine ⟨rfl, ?_⟩
  intro h
  unfold C1Pred leastBucketIdx at h
  rw [if_neg (by decide)] at h
  unfold largePathProp at h
  exact absurd h.1 (by decide)

end Parlay
